import Mathlib

/-!
Shallow embedding of `src/main.rs` of the `rust-release` tool.

The program is a linear CI helper: it finds or creates a GitHub release
named "master", patches its target commit, and uploads the regular files
of `target/release`, deleting a previously uploaded asset of the same
name first.  All effects are HTTP requests; we embed each operation as a
pure function that returns the list of requests it issues together with
its result, and model process aborts (the `t!` / `unwrap` panics) as an
`Option String` holding the diagnostic message, or as `Except`.

Server responses (the release list, the created release, each asset
list) and local-collaborator outputs (the `git rev-parse HEAD` result,
the directory entries) are inputs of the embedded functions, mirroring
the fact that the source consumes them through blocking calls.
-/

/-- The `Release` record decoded from the API (struct `Release` in the
source); `id: u64` is embedded as `Nat`. -/
structure Release where
  id : Nat
  name : String
  upload_url : String
  assets_url : String
  deriving Repr, DecidableEq

/-- The `Asset` record decoded from the API (struct `Asset`, local to
`upload` in the source). -/
structure Asset where
  id : Nat
  name : String
  label : String
  deriving Repr, DecidableEq

/-- Body of the release-creating POST (struct `Create`, local to
`get_release` in the source). -/
structure CreatePayload where
  tag_name : String
  name : String
  draft : Bool
  deriving Repr, DecidableEq

/-- Body of the release-updating PATCH (struct `Update`, local to
`update_release` in the source). -/
structure UpdatePayload where
  target_commitish : String
  draft : Bool
  deriving Repr, DecidableEq

/-- One HTTP request issued by the tool, with the data the claims are
about (URL, JSON payload, and for the upload also the Content-Length and
Content-Type values set on the request). -/
inductive Req where
  | getReleases (url : String)
  | createRelease (url : String) (payload : CreatePayload)
  | patchRelease (url : String) (payload : UpdatePayload)
  | getAssets (url : String)
  | deleteAsset (url : String)
  | uploadAsset (url : String) (contentLength : Nat) (contentType : String)
  deriving Repr, DecidableEq

/-- Result of running the `git rev-parse HEAD` subprocess
(`std::process::Output` as consumed by `publish`): the exit-status
success flag and the UTF-8 decoding of stdout (`String::from_utf8`,
which can fail). The outer `Except` in `publish`'s argument models
`Command::output()` itself failing to spawn. -/
structure CmdOutput where
  success : Bool
  stdoutUtf8 : Except String String

/-- One entry of `fs::read_dir(project/"target/release")`: whether its
file type is a regular file, the file stem, the size in bytes
(`metadata.len()`), and the asset list the server returns when this
file's upload fetches `release.assets_url`. -/
structure DirEntry where
  isFile : Bool
  stem : String
  size : Nat
  assets : List Asset
  deriving Repr, DecidableEq

/-- `format!("https://api.github.com/repos/{}/releases", repo)`. -/
def releasesUrl (repo : String) : String :=
  "https://api.github.com/repos/" ++ repo ++ "/releases"

/-- `format!("https://api.github.com/repos/{}/releases/{}", repo, id)`. -/
def releaseUrl (repo : String) (releaseId : Nat) : String :=
  "https://api.github.com/repos/" ++ repo ++ "/releases/" ++ toString releaseId

/-- `format!("https://api.github.com/repos/{}/releases/assets/{}", repo, id)`. -/
def assetUrl (repo : String) (assetId : Nat) : String :=
  "https://api.github.com/repos/" ++ repo ++ "/releases/assets/" ++ toString assetId

/-- `get_release`: scan the server-returned release list for the first
entry named "master"; if none, POST a create with
`tag_name="master", name="master", draft=true` and return the record the
server answers with (`created`).  The second component is the list of
create calls issued. -/
def get_release : List Release → Release → Release × List CreatePayload
  | [], created => (created, [{ tag_name := "master", name := "master", draft := true }])
  | r :: rest, created =>
      if r.name = "master" then (r, []) else get_release rest created

/-- Unicode White_Space test, i.e. Rust's `char::is_whitespace`, used by
`str::trim`. -/
def rustIsWhitespace (c : Char) : Bool :=
  decide (c.toNat = 0x20) || decide (0x9 ≤ c.toNat ∧ c.toNat ≤ 0xd) ||
  decide (c.toNat = 0x85) || decide (c.toNat = 0xa0) || decide (c.toNat = 0x1680) ||
  decide (0x2000 ≤ c.toNat ∧ c.toNat ≤ 0x200a) || decide (c.toNat = 0x2028) ||
  decide (c.toNat = 0x2029) || decide (c.toNat = 0x202f) || decide (c.toNat = 0x205f) ||
  decide (c.toNat = 0x3000)

/-- ASCII hexadecimal digit (`0-9`, `a-f`, `A-F`); describes the
characters of a well-formed commit hash. -/
def isHexDigit (c : Char) : Bool :=
  decide (0x30 ≤ c.toNat ∧ c.toNat ≤ 0x39) ||
  decide (0x61 ≤ c.toNat ∧ c.toNat ≤ 0x66) ||
  decide (0x41 ≤ c.toNat ∧ c.toNat ≤ 0x46)

/-- Leading-whitespace removal on the character list. -/
def trimStartChars (l : List Char) : List Char :=
  l.dropWhile rustIsWhitespace

/-- Trailing-whitespace removal on the character list. -/
def trimEndChars (l : List Char) : List Char :=
  (l.reverse.dropWhile rustIsWhitespace).reverse

/-- Rust's `str::trim`: strip `char::is_whitespace` from both ends. -/
def rustTrim (s : String) : String :=
  String.mk (trimEndChars (trimStartChars s.data))

/-- Trailing-only trim, used to state what the spec calls "the string
with trailing whitespace trimmed". -/
def rustTrimEnd (s : String) : String :=
  String.mk (trimEndChars s.data)

/-- `update_release`: the PATCH request sent for a release id, with body
`{target_commitish: sha, draft: false}`.  The caller (`publish`) passes
the already-trimmed sha, as in the source. -/
def update_release (repo : String) (releaseId : Nat) (sha : String) : Req :=
  Req.patchRelease (releaseUrl repo releaseId)
    { target_commitish := sha, draft := false }

/-- The derived upload filename
`format!("{}-{}{}", stem, host, env::consts::EXE_SUFFIX)`. -/
def derivedFilename (stem host suffix : String) : String :=
  stem ++ "-" ++ host ++ suffix

/-- The delete requests issued by `upload`'s dedup loop: scan the
fetched asset list, delete the first asset whose name equals the derived
filename, and stop (the loop `break`s). -/
def assetDeletes : List Asset → String → String → List Req
  | [], _, _ => []
  | a :: rest, fn, repo =>
      if a.name = fn then [Req.deleteAsset (assetUrl repo a.id)]
      else assetDeletes rest fn repo

/-- The characters of `url[..url.find("\x7b").unwrap()]`: the longest
brace-free leading segment, or `none` when the URL has no brace (in
which case the source's `unwrap` panics). -/
def takeUntilBrace : List Char → Option (List Char)
  | [] => none
  | c :: cs =>
      if c = '\x7b' then some []
      else (takeUntilBrace cs).map (fun l => c :: l)

/-- The diagnostic of `Option::unwrap` on `None`. -/
def unwrapNoneMsg : String :=
  "called Option::unwrap() on a None value"

/-- `upload` for one file: fetch the release's asset list, delete the
first same-named asset if any, then POST the file's bytes to the
template-stripped upload URL with `?name=<derived filename>`, the file
size as Content-Length and `application/octet-stream` as Content-Type.
Returns the requests issued and `some msg` when the missing-brace
`unwrap` panics before the upload request. -/
def upload (release : Release) (repo host suffix stem : String) (size : Nat)
    (assets : List Asset) : List Req × Option String :=
  match takeUntilBrace release.upload_url.data with
  | none =>
      (Req.getAssets release.assets_url ::
         assetDeletes assets (derivedFilename stem host suffix) repo,
       some unwrapNoneMsg)
  | some base =>
      (Req.getAssets release.assets_url ::
         (assetDeletes assets (derivedFilename stem host suffix) repo ++
           [Req.uploadAsset
              (String.mk base ++ "?name=" ++ derivedFilename stem host suffix)
              size "application/octet-stream"]),
       none)

/-- The `for file in read_dir(...)` loop of `publish`: entries whose
file type is not a regular file are skipped; each regular file runs one
`upload`; a panic inside `upload` aborts the whole loop. -/
def publishLoop (release : Release) (repo host suffix : String) :
    List DirEntry → List Req × Option String
  | [] => ([], none)
  | e :: rest =>
      if e.isFile then
        match upload release repo host suffix e.stem e.size e.assets with
        | (log, some err) => (log, some err)
        | (log, none) =>
            (log ++ (publishLoop release repo host suffix rest).1,
             (publishLoop release repo host suffix rest).2)
      else publishLoop release repo host suffix rest

/-- The per-regular-file concatenation of upload requests: what the loop
is specified to produce (one upload sequence per regular file, nothing
for other entries). -/
def uploadsFor (release : Release) (repo host suffix : String) :
    List DirEntry → List Req
  | [] => []
  | e :: rest =>
      if e.isFile then
        (upload release repo host suffix e.stem e.size e.assets).1 ++
          uploadsFor release repo host suffix rest
      else uploadsFor release repo host suffix rest

/-- `publish`: resolve the release (`get_release`), run
`git rev-parse HEAD` (`t!` panics when the spawn or the UTF-8 decoding
of stdout fails — the exit status is never consulted), PATCH the release
with the trimmed sha and `draft=false`, then iterate the artifact
directory.  Returns the requests issued and `some msg` on abort. -/
def publish (repo host suffix : String) (serverReleases : List Release)
    (created : Release) (git : Except String CmdOutput)
    (entries : List DirEntry) : List Req × Option String :=
  match git with
  | Except.error e =>
      (Req.getReleases (releasesUrl repo) ::
         (get_release serverReleases created).2.map (Req.createRelease (releasesUrl repo)),
       some e)
  | Except.ok out =>
      match out.stdoutUtf8 with
      | Except.error e =>
          (Req.getReleases (releasesUrl repo) ::
             (get_release serverReleases created).2.map (Req.createRelease (releasesUrl repo)),
           some e)
      | Except.ok sha =>
          (Req.getReleases (releasesUrl repo) ::
             ((get_release serverReleases created).2.map (Req.createRelease (releasesUrl repo)) ++
               update_release repo (get_release serverReleases created).1.id (rustTrim sha) ::
                 (publishLoop (get_release serverReleases created).1 repo host suffix entries).1),
           (publishLoop (get_release serverReleases created).1 repo host suffix entries).2)

/-- `exec`: the transport helper's status check
`if code < 200 || code >= 300 \x7b panic!("failed to get 200: ...") \x7d`;
the error message carries the response (body). -/
def exec (code : Nat) (body : String) : Except String Nat :=
  if code < 200 ∨ 300 ≤ code then Except.error ("failed to get 200: " ++ body)
  else Except.ok code

/-- Whether an `Except` result is a success. -/
def exceptOk : Except String Nat → Bool
  | Except.ok _ => true
  | Except.error _ => false

/-- Request classifiers used to count and locate requests in a log. -/
def isListAssets : Req → Bool
  | Req.getAssets _ => true
  | _ => false

def isDeleteReq : Req → Bool
  | Req.deleteAsset _ => true
  | _ => false

def isUploadReq : Req → Bool
  | Req.uploadAsset _ _ _ => true
  | _ => false

/-- JSON values, for the decode/encode model of the `Release` record. -/
inductive Json where
  | null
  | bool (b : Bool)
  | num (n : Nat)
  | str (s : String)
  | obj (fields : List (String × Json))

/-- Field lookup in a JSON object's field list (first binding wins). -/
def jsonLookup : List (String × Json) → String → Option Json
  | [], _ => none
  | (k, v) :: rest, key => if k = key then some v else jsonLookup rest key

/-- Field access on a JSON value; `none` off objects. -/
def jsonField (j : Json) (key : String) : Option Json :=
  match j with
  | Json.obj fields => jsonLookup fields key
  | _ => none

def asNat : Json → Option Nat
  | Json.num n => some n
  | _ => none

def asStr : Json → Option String
  | Json.str s => some s
  | _ => none

/-- The derived `RustcDecodable` for `Release`: read the four fields by
name from the object, failing on a missing field or a wrong shape. -/
def decodeRelease (j : Json) : Option Release :=
  match (jsonField j "id").bind asNat with
  | none => none
  | some i =>
      match (jsonField j "name").bind asStr with
      | none => none
      | some n =>
          match (jsonField j "upload_url").bind asStr with
          | none => none
          | some u =>
              match (jsonField j "assets_url").bind asStr with
              | none => none
              | some a => some (Release.mk i n u a)

/-- Modelled from the spec: the source only derives a decoder for
`Release` (`RustcDecodable`); the encoder the round-trip sentence speaks
of is not in the source and is modelled here as the JSON object holding
the four fields under their field names. -/
def encodeRelease (r : Release) : Json :=
  Json.obj [("id", Json.num r.id), ("name", Json.str r.name),
            ("upload_url", Json.str r.upload_url), ("assets_url", Json.str r.assets_url)]

/-! ## Helper lemmas -/

/-- The resolver scan takes the first "master" entry: any brace of
releases ahead of it is passed over. -/
theorem get_release_of_first (created : Release) (p : List Release) (r : Release)
    (post : List Release) (hp : ∀ x ∈ p, x.name ≠ "master") (hr : r.name = "master") :
    get_release (p ++ r :: post) created = (r, []) := by
  induction p with
  | nil => simp [get_release, hr]
  | cons x p ih =>
      have hx : x.name ≠ "master" := hp x (List.mem_cons_self x p)
      have h := ih (fun y hy => hp y (List.mem_cons_of_mem x hy))
      simpa [get_release, hx] using h

/-- With no "master" entry the resolver reaches the create branch. -/
theorem get_release_of_none (created : Release) (rs : List Release)
    (h : ∀ x ∈ rs, x.name ≠ "master") :
    get_release rs created
      = (created, [{ tag_name := "master", name := "master", draft := true }]) := by
  induction rs with
  | nil => rfl
  | cons x rs ih =>
      have hx : x.name ≠ "master" := h x (List.mem_cons_self x rs)
      have hrec := ih (fun y hy => h y (List.mem_cons_of_mem x hy))
      simpa [get_release, hx] using hrec

/-- No same-named asset: the dedup loop issues nothing. -/
theorem assetDeletes_of_none (fn repo : String) (assets : List Asset)
    (h : ∀ a ∈ assets, a.name ≠ fn) :
    assetDeletes assets fn repo = [] := by
  induction assets with
  | nil => rfl
  | cons a rest ih =>
      have ha : a.name ≠ fn := h a (List.mem_cons_self a rest)
      have hrec := ih (fun y hy => h y (List.mem_cons_of_mem a hy))
      simpa [assetDeletes, ha] using hrec

/-- The dedup loop deletes exactly the first same-named asset and stops. -/
theorem assetDeletes_of_first (fn repo : String) (p : List Asset) (a : Asset)
    (post : List Asset) (hp : ∀ x ∈ p, x.name ≠ fn) (ha : a.name = fn) :
    assetDeletes (p ++ a :: post) fn repo = [Req.deleteAsset (assetUrl repo a.id)] := by
  induction p with
  | nil => simp [assetDeletes, ha]
  | cons x p ih =>
      have hx : x.name ≠ fn := hp x (List.mem_cons_self x p)
      have h := ih (fun y hy => hp y (List.mem_cons_of_mem x hy))
      simpa [assetDeletes, hx] using h

/-- Everything the dedup loop issues is a delete request. -/
theorem assetDeletes_filter_delete (fn repo : String) (assets : List Asset) :
    (assetDeletes assets fn repo).filter isDeleteReq = assetDeletes assets fn repo := by
  induction assets with
  | nil => rfl
  | cons a rest ih =>
      by_cases h : a.name = fn <;> simp [assetDeletes, h, isDeleteReq, ih]

/-- The dedup loop issues no asset-listing request. -/
theorem assetDeletes_filter_listAssets (fn repo : String) (assets : List Asset) :
    (assetDeletes assets fn repo).filter isListAssets = [] := by
  induction assets with
  | nil => rfl
  | cons a rest ih =>
      by_cases h : a.name = fn <;> simp [assetDeletes, h, isListAssets, ih]

/-- The dedup loop issues no upload request. -/
theorem assetDeletes_not_upload (fn repo : String) (assets : List Asset) :
    ∀ r ∈ assetDeletes assets fn repo, isUploadReq r = false := by
  induction assets with
  | nil => intro r hr; simp [assetDeletes] at hr
  | cons a rest ih =>
      intro r hr
      by_cases h : a.name = fn
      · simp [assetDeletes, h] at hr
        simp [hr, isUploadReq]
      · simp only [assetDeletes, if_neg h] at hr
        exact ih r hr

/-- The delete requests of `upload`'s log are exactly the dedup loop's. -/
theorem upload_filter_delete (release : Release) (repo host suffix stem : String)
    (size : Nat) (assets : List Asset) :
    (upload release repo host suffix stem size assets).1.filter isDeleteReq
      = assetDeletes assets (derivedFilename stem host suffix) repo := by
  cases hb : takeUntilBrace release.upload_url.data with
  | none =>
      simp [upload, hb, isDeleteReq, assetDeletes_filter_delete]
  | some base =>
      simp [upload, hb, isDeleteReq, List.filter_append, assetDeletes_filter_delete]

/-- `str::find` semantics on a split input: the segment ahead of the
first brace is returned whole. -/
theorem takeUntilBrace_split (rest : List Char) :
    ∀ (base : List Char), '\x7b' ∉ base →
      takeUntilBrace (base ++ '\x7b' :: rest) = some base
  | [], _ => by simp [takeUntilBrace]
  | c :: l, hb => by
      have hc : ¬ (c = '\x7b') := fun h => hb (by simp [h])
      have ih := takeUntilBrace_split rest l (fun h => hb (List.mem_cons_of_mem c h))
      simp [takeUntilBrace, hc, ih]

/-- Without a brace anywhere, the search comes back empty. -/
theorem takeUntilBrace_of_not_mem :
    ∀ (l : List Char), '\x7b' ∉ l → takeUntilBrace l = none
  | [], _ => rfl
  | c :: l, h => by
      have hc : ¬ (c = '\x7b') := fun hh => h (by simp [hh])
      have ih := takeUntilBrace_of_not_mem l (fun hh => h (List.mem_cons_of_mem c hh))
      simp [takeUntilBrace, hc, ih]

/-- Closed form of `upload` when the upload URL holds a brace. -/
theorem upload_of_brace (release : Release) (repo host suffix stem : String)
    (size : Nat) (assets : List Asset) (base rest : List Char)
    (hurl : release.upload_url.data = base ++ '\x7b' :: rest) (hb : '\x7b' ∉ base) :
    upload release repo host suffix stem size assets
      = (Req.getAssets release.assets_url ::
           (assetDeletes assets (derivedFilename stem host suffix) repo ++
             [Req.uploadAsset
                (String.mk base ++ "?name=" ++ derivedFilename stem host suffix)
                size "application/octet-stream"]),
         none) := by
  unfold upload
  rw [hurl, takeUntilBrace_split rest base hb]

/-- Closed form of `upload` when the upload URL has no brace: the
`unwrap` panic fires after the dedup scan, ahead of the upload POST. -/
theorem upload_of_no_brace (release : Release) (repo host suffix stem : String)
    (size : Nat) (assets : List Asset) (hb : '\x7b' ∉ release.upload_url.data) :
    upload release repo host suffix stem size assets
      = (Req.getAssets release.assets_url ::
           assetDeletes assets (derivedFilename stem host suffix) repo,
         some unwrapNoneMsg) := by
  unfold upload
  rw [takeUntilBrace_of_not_mem release.upload_url.data hb]

/-- With a braced upload URL the directory loop never aborts and its log
is the per-regular-file concatenation of upload logs. -/
theorem publishLoop_of_brace (release : Release) (repo host suffix : String)
    (base rest : List Char)
    (hurl : release.upload_url.data = base ++ '\x7b' :: rest) (hb : '\x7b' ∉ base) :
    ∀ entries, publishLoop release repo host suffix entries
      = (uploadsFor release repo host suffix entries, none)
  | [] => rfl
  | e :: tl => by
      have ih := publishLoop_of_brace release repo host suffix base rest hurl hb tl
      by_cases hf : e.isFile
      · simp [publishLoop, uploadsFor, hf,
          upload_of_brace release repo host suffix e.stem e.size e.assets base rest hurl hb, ih]
      · simp [publishLoop, uploadsFor, hf, ih]

/-- Each regular file contributes exactly one asset-listing request to
the loop's log (the start of its upload sequence). -/
theorem uploadsFor_count (release : Release) (repo host suffix : String)
    (base rest : List Char)
    (hurl : release.upload_url.data = base ++ '\x7b' :: rest) (hb : '\x7b' ∉ base) :
    ∀ entries, ((uploadsFor release repo host suffix entries).filter isListAssets).length
      = (entries.filter (fun e => e.isFile)).length
  | [] => rfl
  | e :: tl => by
      have ih := uploadsFor_count release repo host suffix base rest hurl hb tl
      by_cases hf : e.isFile
      · simp [uploadsFor, hf,
          upload_of_brace release repo host suffix e.stem e.size e.assets base rest hurl hb,
          List.filter_append, isListAssets, assetDeletes_filter_listAssets, ih]
      · simp [uploadsFor, hf, ih]

/-- A hexadecimal digit is not whitespace. -/
theorem hex_not_ws (c : Char) (h : isHexDigit c = true) : rustIsWhitespace c = false := by
  simp only [isHexDigit, Bool.or_eq_true, decide_eq_true_eq] at h
  simp only [rustIsWhitespace, Bool.or_eq_false_iff, decide_eq_false_iff_not]
  omega

/-- `dropWhile` passes over a leading run of satisfying characters. -/
theorem dropWhile_append_of_all (p : Char → Bool) (l2 : List Char) :
    ∀ (l1 : List Char), (∀ c ∈ l1, p c = true) →
      (l1 ++ l2).dropWhile p = l2.dropWhile p
  | [], _ => rfl
  | c :: l, h => by
      have hc : p c = true := h c (List.mem_cons_self c l)
      have ih := dropWhile_append_of_all p l2 l (fun x hx => h x (List.mem_cons_of_mem c hx))
      simp [List.dropWhile_cons, hc, ih]

/-- A string starting with a hex digit loses nothing to the leading
trim. -/
theorem trimStart_of_hex (hd tl : List Char) (hne : hd ≠ [])
    (hhex : ∀ c ∈ hd, isHexDigit c = true) :
    trimStartChars (hd ++ tl) = hd ++ tl := by
  cases hd with
  | nil => exact absurd rfl hne
  | cons c hd' =>
      have hc : rustIsWhitespace c = false := hex_not_ws c (hhex c (List.mem_cons_self c hd'))
      simp [trimStartChars, List.dropWhile_cons, hc]

/-- Trailing trim of hex-then-whitespace leaves exactly the hex part. -/
theorem trimEnd_of_hex_ws (hd tl : List Char) (hne : hd ≠ [])
    (hhex : ∀ c ∈ hd, isHexDigit c = true)
    (hws : ∀ c ∈ tl, rustIsWhitespace c = true) :
    trimEndChars (hd ++ tl) = hd := by
  unfold trimEndChars
  rw [List.reverse_append]
  rw [dropWhile_append_of_all rustIsWhitespace hd.reverse tl.reverse
      (fun c hc => hws c (List.mem_reverse.mp hc))]
  cases h : hd.reverse with
  | nil => exact absurd (List.reverse_eq_nil_iff.mp h) hne
  | cons c r =>
      have hc : c ∈ hd := by
        have hmem : c ∈ hd.reverse := by rw [h]; exact List.mem_cons_self c r
        exact List.mem_reverse.mp hmem
      have hcw : rustIsWhitespace c = false := hex_not_ws c (hhex c hc)
      rw [List.dropWhile_cons, if_neg (by simp [hcw]), ← h, List.reverse_reverse]

/-- On a well-formed commit string (hex digits then whitespace) the
source's two-sided trim, the trailing-only trim and the bare hex part
all agree. -/
theorem rustTrim_wellformed (sha : String) (hd tl : List Char)
    (hsha : sha.data = hd ++ tl) (hne : hd ≠ [])
    (hhex : ∀ c ∈ hd, isHexDigit c = true)
    (hws : ∀ c ∈ tl, rustIsWhitespace c = true) :
    rustTrim sha = String.mk hd ∧ rustTrimEnd sha = String.mk hd := by
  unfold rustTrim rustTrimEnd
  rw [hsha, trimStart_of_hex hd tl hne hhex, trimEnd_of_hex_ws hd tl hne hhex hws]
  exact ⟨rfl, rfl⟩

/-! ## Claim theorems -/

/-- C1: given the server's release list, `get_release` returns the first
release whose name is exactly "master" and issues no create call; when
no release is named "master" it issues exactly one create call with
`tag_name="master", name="master", draft=true` and returns the record
the server created. -/
theorem get_release_spec (rs : List Release) (created : Release) :
    (∀ (p : List Release) (r : Release) (post : List Release),
        rs = p ++ r :: post → (∀ x ∈ p, x.name ≠ "master") → r.name = "master" →
        get_release rs created = (r, [])) ∧
    ((∀ x ∈ rs, x.name ≠ "master") →
        get_release rs created
          = (created, [{ tag_name := "master", name := "master", draft := true }])) := by
  refine ⟨?_, ?_⟩
  · intro p r post hrs hp hr
    rw [hrs]
    exact get_release_of_first created p r post hp hr
  · intro h
    exact get_release_of_none created rs h

/-- Witness for C1: a list whose second element is the "master" release
is resolved to that element with no create call. -/
theorem get_release_spec_witness :
    ((∀ x ∈ [Release.mk 1 "other" "u" "a"], x.name ≠ "master") ∧
      (Release.mk 2 "master" "u2" "a2").name = "master") ∧
    get_release [Release.mk 1 "other" "u" "a", Release.mk 2 "master" "u2" "a2"]
        (Release.mk 0 "" "" "")
      = (Release.mk 2 "master" "u2" "a2", []) :=
  ⟨⟨by decide, by decide⟩,
    (get_release_spec [Release.mk 1 "other" "u" "a", Release.mk 2 "master" "u2" "a2"]
        (Release.mk 0 "" "" "")).1
      [Release.mk 1 "other" "u" "a"] (Release.mk 2 "master" "u2" "a2") []
      (by decide) (by decide) (by decide)⟩

/-- C2: the dedup scan of `upload` issues exactly one delete call — for
the id of the first asset whose name equals the derived filename,
scanning no further — and zero delete calls when no name matches. -/
theorem upload_dedup (release : Release) (repo host suffix stem : String)
    (size : Nat) (assets : List Asset) :
    ((∀ a ∈ assets, a.name ≠ derivedFilename stem host suffix) →
        (upload release repo host suffix stem size assets).1.filter isDeleteReq = []) ∧
    (∀ (p : List Asset) (a : Asset) (post : List Asset),
        assets = p ++ a :: post →
        (∀ x ∈ p, x.name ≠ derivedFilename stem host suffix) →
        a.name = derivedFilename stem host suffix →
        (upload release repo host suffix stem size assets).1.filter isDeleteReq
          = [Req.deleteAsset (assetUrl repo a.id)]) := by
  refine ⟨?_, ?_⟩
  · intro h
    rw [upload_filter_delete]
    exact assetDeletes_of_none (derivedFilename stem host suffix) repo assets h
  · intro p a post hassets hp ha
    rw [upload_filter_delete, hassets]
    exact assetDeletes_of_first (derivedFilename stem host suffix) repo p a post hp ha

/-- Witness for C2: an asset list whose second entry carries the derived
name yields exactly one delete call, for that entry's id. -/
theorem upload_dedup_witness :
    ((Asset.mk 7 "t-h" "l").name = derivedFilename "t" "h" "" ∧
      (∀ x ∈ [Asset.mk 3 "zzz" ""], x.name ≠ derivedFilename "t" "h" "")) ∧
    (upload (Release.mk 1 "master" "u\x7b" "a") "o/r" "h" "" "t" 5
        [Asset.mk 3 "zzz" "", Asset.mk 7 "t-h" "l"]).1.filter isDeleteReq
      = [Req.deleteAsset (assetUrl "o/r" 7)] :=
  ⟨⟨by decide, by decide⟩,
    (upload_dedup (Release.mk 1 "master" "u\x7b" "a") "o/r" "h" "" "t" 5
        [Asset.mk 3 "zzz" "", Asset.mk 7 "t-h" "l"]).2
      [Asset.mk 3 "zzz" ""] (Asset.mk 7 "t-h" "l") []
      (by decide) (by decide) (by decide)⟩

/-- C4: the transport helper fails exactly on status codes outside
[200, 300), carrying the response in the diagnostic; in particular 199,
300, 404 and 500 take the fatal path and 200, 204 and 299 do not. -/
theorem exec_status_range (code : Nat) (body : String) :
    ((code < 200 ∨ 300 ≤ code) →
        exec code body = Except.error ("failed to get 200: " ++ body)) ∧
    ((200 ≤ code ∧ code < 300) → exec code body = Except.ok code) ∧
    exceptOk (exec 199 body) = false ∧ exceptOk (exec 300 body) = false ∧
    exceptOk (exec 404 body) = false ∧ exceptOk (exec 500 body) = false ∧
    exceptOk (exec 200 body) = true ∧ exceptOk (exec 204 body) = true ∧
    exceptOk (exec 299 body) = true := by
  have herr : ∀ c : Nat, (c < 200 ∨ 300 ≤ c) →
      exec c body = Except.error ("failed to get 200: " ++ body) := by
    intro c h
    unfold exec
    rw [if_pos h]
  have hok : ∀ c : Nat, (200 ≤ c ∧ c < 300) → exec c body = Except.ok c := by
    intro c h
    unfold exec
    rw [if_neg (by omega)]
  refine ⟨herr code, hok code, ?_, ?_, ?_, ?_, ?_, ?_, ?_⟩
  · rw [herr 199 (by omega)]; rfl
  · rw [herr 300 (by omega)]; rfl
  · rw [herr 404 (by omega)]; rfl
  · rw [herr 500 (by omega)]; rfl
  · rw [hok 200 (by omega)]; rfl
  · rw [hok 204 (by omega)]; rfl
  · rw [hok 299 (by omega)]; rfl

/-- Witness for C4: status 404 takes the fatal path with the body in the
message. -/
theorem exec_status_range_witness :
    ((404 : Nat) < 200 ∨ 300 ≤ (404 : Nat)) ∧
    exec 404 "oops" = Except.error ("failed to get 200: " ++ "oops") :=
  ⟨by decide, (exec_status_range 404 "oops").1 (by decide)⟩

/-- C5: the derived upload filename is the concatenation of the file
stem, "-", the host triple and the executable suffix; in particular
("tool", "x86_64-unknown-linux-gnu", "") gives
"tool-x86_64-unknown-linux-gnu" and ("tool", "x86_64-pc-windows-msvc",
".exe") gives "tool-x86_64-pc-windows-msvc.exe". -/
theorem derivedFilename_spec (stem host suffix : String) :
    derivedFilename stem host suffix = stem ++ "-" ++ host ++ suffix ∧
    derivedFilename "tool" "x86_64-unknown-linux-gnu" "" = "tool-x86_64-unknown-linux-gnu" ∧
    derivedFilename "tool" "x86_64-pc-windows-msvc" ".exe"
      = "tool-x86_64-pc-windows-msvc.exe" :=
  ⟨rfl, by decide, by decide⟩

/-- C3: for a commit string of the shape git emits (hex digits followed
by whitespace), `publish` sends a PATCH whose body carries
`target_commitish` equal to exactly that string with its trailing
whitespace trimmed and `draft = false`; that trimmed string is the bare
hex part. -/
theorem publish_patch_target (repo host suffix : String) (rels : List Release)
    (created : Release) (succ : Bool) (sha : String) (entries : List DirEntry)
    (hd tl : List Char) (hsha : sha.data = hd ++ tl) (hne : hd ≠ [])
    (hhex : ∀ c ∈ hd, isHexDigit c = true)
    (hws : ∀ c ∈ tl, rustIsWhitespace c = true) :
    Req.patchRelease (releaseUrl repo (get_release rels created).1.id)
        { target_commitish := rustTrimEnd sha, draft := false }
      ∈ (publish repo host suffix rels created
          (Except.ok (CmdOutput.mk succ (Except.ok sha))) entries).1 ∧
    rustTrimEnd sha = String.mk hd := by
  obtain ⟨h1, h2⟩ := rustTrim_wellformed sha hd tl hsha hne hhex hws
  refine ⟨?_, h2⟩
  have hpayload : update_release repo (get_release rels created).1.id (rustTrim sha)
      = Req.patchRelease (releaseUrl repo (get_release rels created).1.id)
          { target_commitish := rustTrimEnd sha, draft := false } := by
    rw [update_release, h1, h2]
  simp only [publish, ← hpayload, List.mem_cons, List.mem_append]
  right
  right
  left
  trivial

/-- Witness for C3: commit string "ab" followed by a newline is patched
as target_commitish "ab" with draft false. -/
theorem publish_patch_target_witness :
    (("ab\n" : String).data = ['a', 'b'] ++ ['\n'] ∧ (['a', 'b'] : List Char) ≠ []) ∧
    Req.patchRelease
        (releaseUrl "o/r" (get_release [Release.mk 1 "master" "u" "a"]
          (Release.mk 0 "" "" "")).1.id)
        { target_commitish := rustTrimEnd "ab\n", draft := false }
      ∈ (publish "o/r" "h" "" [Release.mk 1 "master" "u" "a"] (Release.mk 0 "" "" "")
          (Except.ok (CmdOutput.mk true (Except.ok "ab\n"))) []).1 :=
  ⟨⟨by decide, by decide⟩,
    (publish_patch_target "o/r" "h" "" [Release.mk 1 "master" "u" "a"]
        (Release.mk 0 "" "" "") true "ab\n" [] ['a', 'b'] ['\n']
        (by decide) (by decide) (by decide) (by decide)).1⟩

/-- C6: with a well-formed (braced) upload URL the directory loop runs
exactly one upload sequence per regular-file entry — its log is the
concatenation of the regular files' upload logs, each opening with one
asset-listing request — and entries that are not regular files are
skipped, contributing nothing. -/
theorem publishLoop_per_file (release : Release) (repo host suffix : String)
    (entries : List DirEntry) (base rest : List Char)
    (hurl : release.upload_url.data = base ++ '\x7b' :: rest) (hb : '\x7b' ∉ base) :
    (publishLoop release repo host suffix entries).2 = none ∧
    (publishLoop release repo host suffix entries).1
      = uploadsFor release repo host suffix entries ∧
    ((publishLoop release repo host suffix entries).1.filter isListAssets).length
      = (entries.filter (fun e => e.isFile)).length := by
  have h := publishLoop_of_brace release repo host suffix base rest hurl hb entries
  refine ⟨by rw [h], by rw [h], ?_⟩
  rw [h]
  exact uploadsFor_count release repo host suffix base rest hurl hb entries

/-- Witness for C6: a directory with two regular files and one
subdirectory yields exactly two upload sequences. -/
theorem publishLoop_per_file_witness :
    ((Release.mk 1 "master" "u\x7b" "a").upload_url.data = ['u'] ++ '\x7b' :: [] ∧
      '\x7b' ∉ (['u'] : List Char)) ∧
    ((publishLoop (Release.mk 1 "master" "u\x7b" "a") "o/r" "h" ""
        [DirEntry.mk true "t1" 3 [], DirEntry.mk false "d" 0 [],
         DirEntry.mk true "t2" 5 []]).1.filter isListAssets).length
      = ([DirEntry.mk true "t1" 3 [], DirEntry.mk false "d" 0 [],
          DirEntry.mk true "t2" 5 []].filter (fun e => e.isFile)).length :=
  ⟨⟨by decide, by decide⟩,
    (publishLoop_per_file (Release.mk 1 "master" "u\x7b" "a") "o/r" "h" ""
        [DirEntry.mk true "t1" 3 [], DirEntry.mk false "d" 0 [],
         DirEntry.mk true "t2" 5 []] ['u'] []
        (by decide) (by decide)).2.2⟩

/-- C7: when the release's upload URL holds a brace, the upload POST
goes to the brace-free leading segment of the URL with "?name=" and the
derived filename appended, with Content-Length equal to the file size
and Content-Type application/octet-stream; it follows the asset listing
and the dedup deletes, and nothing panics. -/
theorem upload_request_shape (release : Release) (repo host suffix stem : String)
    (size : Nat) (assets : List Asset) (base rest : List Char)
    (hurl : release.upload_url.data = base ++ '\x7b' :: rest) (hb : '\x7b' ∉ base) :
    upload release repo host suffix stem size assets
      = (Req.getAssets release.assets_url ::
           (assetDeletes assets (derivedFilename stem host suffix) repo ++
             [Req.uploadAsset
                (String.mk base ++ "?name=" ++ derivedFilename stem host suffix)
                size "application/octet-stream"]),
         none) :=
  upload_of_brace release repo host suffix stem size assets base rest hurl hb

/-- Witness for C7: a concrete braced upload URL produces the stripped
upload POST with the derived name, size and content type. -/
theorem upload_request_shape_witness :
    (("u\x7bx" : String).data = ['u'] ++ '\x7b' :: ['x'] ∧
      '\x7b' ∉ (['u'] : List Char)) ∧
    upload (Release.mk 1 "master" "u\x7bx" "a") "o/r" "h" "" "t" 9 []
      = (Req.getAssets "a" ::
           (assetDeletes [] (derivedFilename "t" "h" "") "o/r" ++
             [Req.uploadAsset (String.mk ['u'] ++ "?name=" ++ derivedFilename "t" "h" "")
                9 "application/octet-stream"]),
         none) :=
  ⟨⟨by decide, by decide⟩,
    upload_request_shape (Release.mk 1 "master" "u\x7bx" "a") "o/r" "h" "" "t" 9 []
      ['u'] ['x'] (by decide) (by decide)⟩

/-- C10: when the release's upload URL holds no brace, `upload` hits the
`unwrap` panic after the dedup scan and never issues the upload POST. -/
theorem upload_requires_brace (release : Release) (repo host suffix stem : String)
    (size : Nat) (assets : List Asset)
    (hb : '\x7b' ∉ release.upload_url.data) :
    (upload release repo host suffix stem size assets).2 = some unwrapNoneMsg ∧
    ∀ r ∈ (upload release repo host suffix stem size assets).1,
      isUploadReq r = false := by
  rw [upload_of_no_brace release repo host suffix stem size assets hb]
  refine ⟨rfl, ?_⟩
  intro r hr
  rcases List.mem_cons.mp hr with h | h
  · rw [h]; rfl
  · exact assetDeletes_not_upload (derivedFilename stem host suffix) repo assets r h

/-- Witness for C10: a brace-free upload URL makes the upload panic
before any upload request. -/
theorem upload_requires_brace_witness :
    ('\x7b' ∉ ("u" : String).data) ∧
    (upload (Release.mk 1 "master" "u" "a") "o/r" "h" "" "t" 9 []).2
      = some unwrapNoneMsg :=
  ⟨by decide,
    (upload_requires_brace (Release.mk 1 "master" "u" "a") "o/r" "h" "" "t" 9 []
      (by decide)).1⟩

/-- C8 (failing input): the source never consults the exit status of the
`git rev-parse HEAD` subprocess (unlike the neighbouring `rustc -vV`
call, which asserts success).  When git runs but fails — exit status
unsuccessful, stdout empty, so the query did not yield the checkout's
HEAD commit hash — `publish` does not abort: it PATCHes the release with
`target_commitish = ""` and `draft = false` and completes normally. -/
theorem publish_git_exit_unchecked :
    publish "o/r" "h" "" [Release.mk 1 "master" "u" "a"] (Release.mk 0 "" "" "")
        (Except.ok (CmdOutput.mk false (Except.ok ""))) []
      = ([Req.getReleases "https://api.github.com/repos/o/r/releases",
          Req.patchRelease "https://api.github.com/repos/o/r/releases/1"
            { target_commitish := "", draft := false }], none) := by
  decide

/-- C9: encoding a `Release` and decoding it back is the identity, and
whenever a JSON value decodes to a `Release`, re-encoding that record
reproduces the four fields id, name, upload_url and assets_url exactly
as they stood in the original JSON. -/
theorem release_roundtrip :
    (∀ r : Release, decodeRelease (encodeRelease r) = some r) ∧
    (∀ (j : Json) (r : Release), decodeRelease j = some r →
        jsonField (encodeRelease r) "id" = jsonField j "id" ∧
        jsonField (encodeRelease r) "name" = jsonField j "name" ∧
        jsonField (encodeRelease r) "upload_url" = jsonField j "upload_url" ∧
        jsonField (encodeRelease r) "assets_url" = jsonField j "assets_url") := by
  refine ⟨?_, ?_⟩
  · intro r
    rfl
  · intro j r h
    cases hi : (jsonField j "id").bind asNat with
    | none => rw [decodeRelease, hi] at h; exact absurd h (by simp)
    | some i =>
        cases hn : (jsonField j "name").bind asStr with
        | none => rw [decodeRelease, hi, hn] at h; exact absurd h (by simp)
        | some n =>
            cases hu : (jsonField j "upload_url").bind asStr with
            | none => rw [decodeRelease, hi, hn, hu] at h; exact absurd h (by simp)
            | some u =>
                cases ha : (jsonField j "assets_url").bind asStr with
                | none => rw [decodeRelease, hi, hn, hu, ha] at h; exact absurd h (by simp)
                | some a =>
                    rw [decodeRelease, hi, hn, hu, ha] at h
                    have hr : r = Release.mk i n u a := by
                      cases h
                      rfl
                    subst hr
                    have hfi : jsonField j "id" = some (Json.num i) := by
                      cases hji : jsonField j "id" with
                      | none => rw [hji] at hi; exact absurd hi (by simp)
                      | some v =>
                          rw [hji] at hi
                          cases v <;> simp [asNat] at hi
                          rw [hi]
                    have hfn : jsonField j "name" = some (Json.str n) := by
                      cases hjn : jsonField j "name" with
                      | none => rw [hjn] at hn; exact absurd hn (by simp)
                      | some v =>
                          rw [hjn] at hn
                          cases v <;> simp [asStr] at hn
                          rw [hn]
                    have hfu : jsonField j "upload_url" = some (Json.str u) := by
                      cases hju : jsonField j "upload_url" with
                      | none => rw [hju] at hu; exact absurd hu (by simp)
                      | some v =>
                          rw [hju] at hu
                          cases v <;> simp [asStr] at hu
                          rw [hu]
                    have hfa : jsonField j "assets_url" = some (Json.str a) := by
                      cases hja : jsonField j "assets_url" with
                      | none => rw [hja] at ha; exact absurd ha (by simp)
                      | some v =>
                          rw [hja] at ha
                          cases v <;> simp [asStr] at ha
                          rw [ha]
                    rw [hfi, hfn, hfu, hfa]
                    exact ⟨rfl, rfl, rfl, rfl⟩

/-- Witness for C9: a JSON object with reordered fields and an extra
field decodes to a record whose re-encoding carries the same four field
values. -/
theorem release_roundtrip_witness :
    decodeRelease (Json.obj [("extra", Json.null), ("assets_url", Json.str "A"),
        ("name", Json.str "N"), ("id", Json.num 7), ("upload_url", Json.str "U")])
      = some (Release.mk 7 "N" "U" "A") ∧
    jsonField (encodeRelease (Release.mk 7 "N" "U" "A")) "id"
      = jsonField (Json.obj [("extra", Json.null), ("assets_url", Json.str "A"),
          ("name", Json.str "N"), ("id", Json.num 7), ("upload_url", Json.str "U")]) "id" :=
  ⟨rfl,
    ((release_roundtrip).2 (Json.obj [("extra", Json.null), ("assets_url", Json.str "A"),
        ("name", Json.str "N"), ("id", Json.num 7), ("upload_url", Json.str "U")])
      (Release.mk 7 "N" "U" "A") rfl).1⟩
